import Mathlib

/-!
Shallow embedding of `src/app.py` (an MP4 → ASCII-art terminal player).

The program's core is a class `HDAsciiPlayer` with:
  * module constants `ENHANCED_ASCII`, `FPS`, `ASCII_WIDTH`, `MAX_THREADS`;
  * `_get_terminal_size`: terminal size minus a margin with a (24, 80) floor;
  * `_convert_to_ascii`: read an image, enhance it (OpenCV), resize the
    grayscale image to `(min(ASCII_WIDTH, cols), int(rows * 0.9))` and map each
    pixel through the glyph ramp, accumulating `line + "\n"` per row;
  * `convert_video`: ffmpeg decode, then `ThreadPoolExecutor.map` of
    `_convert_to_ascii` over the sorted frame files, keeping truthy results;
  * `play`: a curses loop rendering each frame, with a status line, a
    non-blocking `getch` quit poll (`q`), a per-frame sleep, and
    `curses.endwin()` in a `finally:` block.

External libraries (OpenCV, curses, ffmpeg, the thread pool) are modelled by
their documented contracts: `cv2.resize(gray, (w, h))` returns an `h × w`
matrix (a dimension hypothesis where needed); `ThreadPoolExecutor.map` yields
results in argument order regardless of completion order (modelled as
`List.map`); curses calls become events in a trace.  Machine pixels are
`uint8`, embedded as `Nat`; Python's unbounded `int` is embedded as `Int`
where negative values matter.
-/

namespace HDAscii

/-- `ENHANCED_ASCII = "@%#W$9876543210?!abc;:+=-,._ "` (app.py line 11). -/
def ENHANCED_ASCII : String := "@%#W$9876543210?!abc;:+=-,._ "

/-- `FPS = 12` (app.py line 13). -/
def FPS : Nat := 12

/-- `ASCII_WIDTH = 100` (app.py line 14). -/
def ASCII_WIDTH : Nat := 100

/-- `MAX_THREADS = 4` (app.py line 15). -/
def MAX_THREADS : Nat := 4

/-- `_get_terminal_size` (app.py lines 23-30): on success returns
`(max(rows-2, 24), max(cols-4, 80))` where `shutil.get_terminal_size()`
returned `(cols, rows)`; on any exception returns `(24, 80)`.  The query
result is modelled as `Option (Nat × Nat)` (`none` = exception).  Terminal
sizes are nonnegative; Python's possibly negative intermediate `rows - 2`
is absorbed by `max(·, 24)`, so saturating `Nat` subtraction yields the
same value for every nonnegative input. -/
def get_terminal_size (q : Option (Nat × Nat)) : Nat × Nat :=
  match q with
  | some (cols, rows) => (max (rows - 2) 24, max (cols - 4) 80)
  | none => (24, 80)

/-- The ramp index of app.py line 73:
`min(int((p/255) * (len(ENHANCED_ASCII)-1)), len(ENHANCED_ASCII)-1)`,
for an arbitrary Python integer `p`.  `int(·)` truncates toward zero, and
for `|p| ≤ 10^12` the two float roundings in `(p/255) * 28` are far smaller
than the `1/255` grid of the exact value's fractional part, so the result
equals exact truncation toward zero of `p * 28 / 255`, i.e. `Int.tdiv`. -/
def rampIndex (p : Int) : Int :=
  min ((p * ((ENHANCED_ASCII.length : Int) - 1)).tdiv 255)
    ((ENHANCED_ASCII.length : Int) - 1)

/-- The same ramp index restricted to `uint8` pixels (the only values that
occur in the program: `p` ranges over a `cv2` grayscale row).  For `p ≥ 0`
truncation toward zero is floor, i.e. `Nat` division. -/
def rampIndexNat (p : Nat) : Nat :=
  min (p * (ENHANCED_ASCII.length - 1) / 255) (ENHANCED_ASCII.length - 1)

/-- Python string indexing `s[i]` with its negative-index convention:
`s[i] = s[len(s)+i]` for `-len(s) ≤ i < 0`; out of range raises
(modelled as `none`). -/
def pyStrGet (s : String) (i : Int) : Option Char :=
  if 0 ≤ i then s.data.get? i.toNat
  else if 0 ≤ (s.length : Int) + i then s.data.get? ((s.length : Int) + i).toNat
  else none

/-- `ENHANCED_ASCII[min(int((p/255)*(N-1)), N-1)]` for an arbitrary Python
integer `p`, with Python's indexing semantics. -/
def glyphAt (p : Int) : Option Char := pyStrGet ENHANCED_ASCII (rampIndex p)

theorem rampIndexNat_lt_length (p : Nat) :
    rampIndexNat p < ENHANCED_ASCII.length :=
  Nat.lt_of_le_of_lt (Nat.min_le_right _ _) (by decide)

/-- The glyph selected for a `uint8` pixel (app.py line 73; the index is
provably in range, so the Python lookup cannot fail here). -/
def mapGlyph (p : Nat) : Char :=
  ENHANCED_ASCII.data.get ⟨rampIndexNat p, rampIndexNat_lt_length p⟩

/-- One line of the ASCII frame: app.py lines 73-74,
`"".join([ENHANCED_ASCII[...] for p in row])`. -/
def asciiLine (row : List Nat) : String := ⟨row.map mapGlyph⟩

/-- The frame string of app.py lines 71-75: `ascii_str = ""`, then for each
row of the resized grayscale image, `ascii_str += line + "\n"`. -/
def asciiStr (gray : List (List Nat)) : String :=
  gray.foldl (fun acc row => acc ++ asciiLine row ++ "\n") ""

/-- `height = int(self.term_size[0] * 0.9)` (app.py line 66).  For
nonnegative `rows`, `int(rows * 0.9)` equals `⌊9 * rows / 10⌋` (the float
product's error is far below the `1/10` fractional grid, and when
`9 * rows / 10` is an integer the product rounds to it exactly). -/
def gridHeight (rows : Nat) : Nat := rows * 9 / 10

/-- `width = min(ASCII_WIDTH, self.term_size[1])` (app.py line 67). -/
def gridWidth (cols : Nat) : Nat := min ASCII_WIDTH cols

/-- Python `str.splitlines` restricted to `"\n"` separators (the only line
break the program produces): split at each newline, no trailing empty
entry when the string ends with a newline. -/
def splitlinesAux : List Char → List Char → List (List Char)
  | [], acc => if acc.isEmpty then [] else [acc.reverse]
  | c :: rest, acc =>
    if c = '\n' then acc.reverse :: splitlinesAux rest []
    else splitlinesAux rest (c :: acc)

/-- `frame.splitlines()` (app.py line 134). -/
def splitlines (s : String) : List String :=
  (splitlinesAux s.data []).map fun l => ⟨l⟩

/-- Python slicing `s[:n]` for `n ≥ 0`: the first `n` characters. -/
def pySlice (s : String) (n : Nat) : String := ⟨s.data.take n⟩

/-- `[f for f in results if f]` (app.py line 106): each result is `None`
or a `str`; Python truthiness keeps exactly the non-`None`, nonempty
strings. -/
def collectFrames (results : List (Option String)) : List String :=
  results.filterMap fun r =>
    match r with
    | some s => if s.isEmpty then none else some s
    | none => none

/-- The conversion stage of `convert_video` (app.py lines 98-106):
`executor.map` applies `_convert_to_ascii` to every frame file and yields
the results in argument order regardless of worker completion order (the
documented `ThreadPoolExecutor.map` contract), so it is embedded as
`List.map`; then the truthy results are kept. -/
def convert_video_frames (conv : String → Option String)
    (frame_files : List String) : List String :=
  collectFrames (frame_files.map conv)

/-- `return bool(self.ascii_frames)` (app.py line 107), for the conversion
stage: `True` iff at least one frame survived. -/
def convert_video_ok (results : List (Option String)) : Bool :=
  !(collectFrames results).isEmpty

/-- The `__main__` decision around conversion (app.py lines 164-169):
`if not player.convert_video(): exit(1)` else playback runs.  Returns
(exit status of the abort path or 0, whether the playback phase was
entered).  The earlier fatal paths of `convert_video` (missing input
file, ffmpeg failure) are upstream of the conversion-results stage
modelled here. -/
def main_run (results : List (Option String)) : Nat × Bool :=
  if convert_video_ok results then (0, true) else (1, false)

/-- The status line of app.py line 139:
`f"HD-ASCII {idx+1}/{len(self.ascii_frames)} | {FPS}FPS | Q退出"`. -/
def statusText (idx total : Nat) : String :=
  "HD-ASCII " ++ toString (idx + 1) ++ "/" ++ toString total ++ " | " ++
    toString FPS ++ "FPS | Q" ++ "退出"

/-- The `addstr` calls of one frame render (app.py lines 134-140), as
(row, text) pairs: for `i in range(min(len(lines), max_rows-1))` draw
`lines[i][:max_cols-1]` at row `i`, then draw
`status[:max_cols-1]` at row `min(max_rows-1, len(lines))`. -/
def renderCalls (maxRows maxCols idx total : Nat) (frame : String) :
    List (Nat × String) :=
  let lines := splitlines frame
  ((List.range (min lines.length (maxRows - 1))).map fun i =>
    (i, pySlice (lines.getD i "") (maxCols - 1)))
  ++ [(min (maxRows - 1) lines.length, pySlice (statusText idx total) (maxCols - 1))]

/-- Terminal events of the playback engine, in program order. -/
inductive Ev where
  | initscr
  | clear
  | draw (row : Nat) (s : String)
  | refresh
  | sleep
  | endwin
  deriving DecidableEq, Repr

/-- How the `play` loop ended. -/
inductive Outcome where
  /-- The frame list was exhausted with no quit key. -/
  | exhausted
  /-- `stdscr.getch() == ord('q')` hit the `break` (app.py lines 144-145). -/
  | userQuit
  /-- An exception other than `curses.error` (e.g. `KeyboardInterrupt`)
  propagated out of the loop. -/
  | interrupted
  /-- `play` returned at app.py lines 111-113 without touching the terminal. -/
  | noFramesError
  deriving DecidableEq, Repr

def drawsOf (calls : List (Nat × String)) : List Ev :=
  calls.map fun p => Ev.draw p.1 p.2

/-- The `for idx, frame in enumerate(self.ascii_frames)` loop of app.py
lines 130-149.  Oracles: `key idx` is the `getch` result at iteration
`idx` (`ord('q') = 113` quits); `rerr idx = true` means `curses.error`
was raised while rendering iteration `idx` (the `except ... continue`
path; its partial draws are elided — no claim concerns them); `abort =
some idx` means an uncaught exception (e.g. an external interruption
signal) fired at iteration `idx` and propagates.  Per iteration:
`clear`, render, `refresh`, poll, `break` on quit, else `sleep`. -/
def playLoop (maxRows maxCols total : Nat) (key : Nat → Int)
    (rerr : Nat → Bool) (abort : Option Nat) :
    Nat → List String → List Ev × Outcome
  | _, [] => ([], Outcome.exhausted)
  | idx, frame :: rest =>
    if abort = some idx then ([], Outcome.interrupted)
    else if rerr idx then
      (Ev.clear :: (playLoop maxRows maxCols total key rerr abort (idx + 1) rest).1,
        (playLoop maxRows maxCols total key rerr abort (idx + 1) rest).2)
    else if key idx = 113 then
      (Ev.clear :: drawsOf (renderCalls maxRows maxCols idx total frame)
        ++ [Ev.refresh], Outcome.userQuit)
    else
      (Ev.clear :: drawsOf (renderCalls maxRows maxCols idx total frame)
        ++ [Ev.refresh, Ev.sleep]
        ++ (playLoop maxRows maxCols total key rerr abort (idx + 1) rest).1,
        (playLoop maxRows maxCols total key rerr abort (idx + 1) rest).2)

/-- `play` (app.py lines 109-151): with no frames, print an error and
return before `curses.initscr()`; otherwise run the loop inside
`try: ... finally: curses.endwin()`, so `endwin` follows the loop's
events on every exit path. -/
def play (maxRows maxCols : Nat) (key : Nat → Int) (rerr : Nat → Bool)
    (abort : Option Nat) (frames : List String) : List Ev × Outcome :=
  if frames.isEmpty then ([], Outcome.noFramesError)
  else
    (Ev.initscr ::
        (playLoop maxRows maxCols frames.length key rerr abort 0 frames).1
        ++ [Ev.endwin],
      (playLoop maxRows maxCols frames.length key rerr abort 0 frames).2)

def isRefresh : Ev → Bool
  | Ev.refresh => true
  | _ => false

def isClear : Ev → Bool
  | Ev.clear => true
  | _ => false

def isSleep : Ev → Bool
  | Ev.sleep => true
  | _ => false

def isEndwin : Ev → Bool
  | Ev.endwin => true
  | _ => false

/-! Theorems. -/

theorem mapGlyph_mem (p : Nat) : mapGlyph p ∈ ENHANCED_ASCII.data :=
  List.get_mem _ _ _

/-- C1: for every luminance value v in [0,255], the glyph chosen at app.py
line 73 is a character of the configured ramp `ENHANCED_ASCII`, the selected
ramp index equals `⌊v / 255 * (N−1)⌋` with `N` the ramp length, and the
index is non-decreasing as v increases. -/
theorem C1_glyph_map :
    (∀ v : Nat, v ≤ 255 →
      mapGlyph v ∈ ENHANCED_ASCII.data ∧
      rampIndexNat v = v * (ENHANCED_ASCII.length - 1) / 255) ∧
    (∀ v w : Nat, v ≤ w → w ≤ 255 → rampIndexNat v ≤ rampIndexNat w) := by
  constructor
  · intro v hv
    refine ⟨mapGlyph_mem v, ?_⟩
    have hle : v * (ENHANCED_ASCII.length - 1) / 255 ≤ ENHANCED_ASCII.length - 1 := by
      calc v * (ENHANCED_ASCII.length - 1) / 255
          ≤ 255 * (ENHANCED_ASCII.length - 1) / 255 :=
            Nat.div_le_div_right (Nat.mul_le_mul_right _ hv)
        _ = ENHANCED_ASCII.length - 1 := by decide
    exact Nat.min_eq_left hle
  · intro v w hvw _
    exact min_le_min (Nat.div_le_div_right (Nat.mul_le_mul_right _ hvw)) le_rfl

/-- Witness for C1 at v = 128 and the pair (100, 200). -/
theorem C1_glyph_map_witness :
    (mapGlyph 128 ∈ ENHANCED_ASCII.data ∧
      rampIndexNat 128 = 128 * (ENHANCED_ASCII.length - 1) / 255) ∧
    rampIndexNat 100 ≤ rampIndexNat 200 :=
  ⟨C1_glyph_map.1 128 (by decide), C1_glyph_map.2 100 200 (by decide) (by decide)⟩

/-- C7 counterexample: the index of app.py line 73 clamps only the high
end.  At integer luminance −10 the ramp index is −1, outside [0, N−1];
at −274 even the Python lookup (with its negative-index convention) goes
out of bounds.  (In the program pixels are uint8, so such inputs never
reach the expression.) -/
theorem C7_counterexample :
    rampIndex (-10) = -1 ∧ ¬ (0 ≤ rampIndex (-10)) ∧ glyphAt (-274) = none := by
  decide

theorem rampIndex_ofNat (p : Nat) : rampIndex (p : Int) = (rampIndexNat p : Int) := by
  unfold rampIndex rampIndexNat
  have h1 : ((ENHANCED_ASCII.length : Int) - 1) = ((ENHANCED_ASCII.length - 1 : Nat) : Int) := by
    decide
  rw [h1]
  have h2 : ((p : Int) * ((ENHANCED_ASCII.length - 1 : Nat) : Int)).tdiv 255
      = ((p * (ENHANCED_ASCII.length - 1) / 255 : Nat) : Int) := by
    rw [← Nat.cast_mul]
    rfl
  rw [h2]
  exact (Nat.cast_min _ _).symm

/-- C7 (amended): for every nonnegative integer luminance input — which
covers all values that can occur, since pixels are uint8 — the ramp index
lies within [0, N−1] (the `min` clamps the high end) and the ramp lookup
succeeds.  There is no low-end clamp: a negative input can produce an
index outside [0, N−1] and, if negative enough, an out-of-bounds lookup. -/
theorem C7_low_clamp_amended (v : Int) (hv : 0 ≤ v) :
    0 ≤ rampIndex v ∧ rampIndex v ≤ (ENHANCED_ASCII.length : Int) - 1 ∧
    glyphAt v = some (mapGlyph v.toNat) := by
  obtain ⟨p, rfl⟩ := Int.eq_ofNat_of_zero_le hv
  refine ⟨?_, ?_, ?_⟩
  · rw [rampIndex_ofNat]
    exact Int.natCast_nonneg _
  · rw [rampIndex_ofNat]
    have h1 : rampIndexNat p ≤ ENHANCED_ASCII.length - 1 := Nat.min_le_right _ _
    have hL : ENHANCED_ASCII.length = 29 := by decide
    rw [hL] at h1 ⊢
    omega
  · unfold glyphAt pyStrGet
    rw [rampIndex_ofNat]
    rw [if_pos (Int.natCast_nonneg _)]
    rw [Int.toNat_natCast, Int.toNat_natCast]
    exact List.get?_eq_get (rampIndexNat_lt_length p)

/-- Witness for C7 (amended) at v = 300. -/
theorem C7_low_clamp_amended_witness :
    0 ≤ rampIndex 300 ∧ rampIndex 300 ≤ (ENHANCED_ASCII.length : Int) - 1 ∧
    glyphAt 300 = some (mapGlyph (300 : Int).toNat) :=
  C7_low_clamp_amended 300 (by decide)

/-- C9: the viewport is the reported terminal size minus a fixed margin of
2 rows and 4 columns, floored at 24 rows and 80 columns; hence the viewport
always satisfies rows ≥ 24 and cols ≥ 80; and when the terminal-size query
fails it is exactly (24, 80). -/
theorem C9_viewport :
    (∀ cols rows : Nat, get_terminal_size (some (cols, rows))
        = (max (rows - 2) 24, max (cols - 4) 80)) ∧
    (∀ q, 24 ≤ (get_terminal_size q).1 ∧ 80 ≤ (get_terminal_size q).2) ∧
    get_terminal_size none = (24, 80) := by
  refine ⟨fun cols rows => rfl, ?_, rfl⟩
  intro q
  match q with
  | none => exact ⟨Nat.le_refl _, Nat.le_refl _⟩
  | some (cols, rows) => exact ⟨Nat.le_max_right _ _, Nat.le_max_right _ _⟩

theorem collectFrames_all_none :
    ∀ (results : List (Option String)), (∀ r ∈ results, r = none) →
      collectFrames results = [] := by
  intro results
  induction results with
  | nil => intro _; rfl
  | cons r rs ih =>
    intro h
    obtain ⟨hr, hrs⟩ := List.forall_mem_cons.mp h
    subst hr
    simpa [collectFrames] using ih hrs

/-- C4: if every per-path conversion fails (all results `None`), the frame
list assembled at app.py line 106 is empty, `convert_video` returns
`False`, and `__main__` exits with status 1 without entering the playback
phase. -/
theorem C4_all_fail_aborts (results : List (Option String))
    (h : ∀ r ∈ results, r = none) :
    collectFrames results = [] ∧ convert_video_ok results = false ∧
    main_run results = (1, false) := by
  have hc : collectFrames results = [] := collectFrames_all_none results h
  have hok : convert_video_ok results = false := by
    simp [convert_video_ok, hc]
  exact ⟨hc, hok, by simp [main_run, hok]⟩

/-- Witness for C4 with two failing conversions. -/
theorem C4_all_fail_aborts_witness :
    collectFrames [none, none] = [] ∧ convert_video_ok [none, none] = false ∧
    main_run [none, none] = (1, false) :=
  C4_all_fail_aborts [none, none] (by simp)

/-- C3: the frame sequence produced by the conversion stage of
`convert_video` equals the per-path conversion results in original path
order restricted to successes, regardless of worker completion order
(`executor.map` yields results in argument order).  The hypothesis — every
successful conversion is a nonempty string — holds for `_convert_to_ascii`
output, which always ends in a newline; it makes Python's truthiness
filter `[f for f in results if f]` agree with "drop the `None`s". -/
theorem C3_order_preserved (conv : String → Option String) (paths : List String)
    (h : (paths.all fun p => match conv p with
      | some s => !s.isEmpty
      | none => true) = true) :
    convert_video_frames conv paths = (paths.map conv).filterMap id := by
  revert h
  induction paths with
  | nil => intro _; rfl
  | cons a l ih =>
    intro h
    rw [List.all_cons, Bool.and_eq_true] at h
    obtain ⟨ha, hl⟩ := h
    have hrec := ih hl
    cases hc : conv a with
    | none =>
      simp only [convert_video_frames, collectFrames, List.map_cons,
        List.filterMap_cons, hc] at hrec ⊢
      exact hrec
    | some s =>
      rw [hc] at ha
      have hs : s.isEmpty = false := by
        have ha' : (!s.isEmpty) = true := ha
        simpa using ha'
      simp only [convert_video_frames, collectFrames, List.map_cons,
        List.filterMap_cons, hc, hs, id] at hrec ⊢
      simpa [hs] using congrArg (List.cons s) hrec

theorem mapGlyph_ne_newline (p : Nat) : mapGlyph p ≠ '\n' := by
  intro h
  have hm := mapGlyph_mem p
  rw [h] at hm
  exact absurd hm (by decide)

theorem splitlinesAux_line (l : List Char) (rest acc : List Char)
    (hl : '\n' ∉ l) :
    splitlinesAux (l ++ '\n' :: rest) acc
      = (acc.reverse ++ l) :: splitlinesAux rest [] := by
  induction l generalizing acc with
  | nil => simp [splitlinesAux]
  | cons c cs ih =>
    have hc : ¬ (c = '\n') := fun h => hl (h ▸ List.mem_cons_self c cs)
    have hcs : '\n' ∉ cs := fun h => hl (List.mem_cons_of_mem c h)
    simp only [List.cons_append, splitlinesAux, if_neg hc, List.append_eq]
    rw [ih _ hcs]
    simp

theorem data_append (a b : String) : (a ++ b).data = a.data ++ b.data := rfl

theorem asciiStr_data (gray : List (List Nat)) :
    (asciiStr gray).data
      = (gray.map fun row => row.map mapGlyph ++ ['\n']).flatten := by
  have key : ∀ (g : List (List Nat)) (s : String),
      (g.foldl (fun acc row => acc ++ asciiLine row ++ "\n") s).data
        = s.data ++ (g.map fun row => row.map mapGlyph ++ ['\n']).flatten := by
    intro g
    induction g with
    | nil => intro s; simp
    | cons r rs ih =>
      intro s
      rw [List.foldl_cons, ih]
      simp [data_append, asciiLine]
  simpa using key gray ""

theorem splitlines_asciiStr (gray : List (List Nat)) :
    splitlines (asciiStr gray) = gray.map fun row => asciiLine row := by
  unfold splitlines
  rw [asciiStr_data]
  have key : ∀ (g : List (List Nat)),
      splitlinesAux ((g.map fun row => row.map mapGlyph ++ ['\n']).flatten) []
        = g.map fun row => row.map mapGlyph := by
    intro g
    induction g with
    | nil => rfl
    | cons r rs ih =>
      have hnl : '\n' ∉ r.map mapGlyph := by
        intro hm
        obtain ⟨p, _, hp⟩ := List.mem_map.mp hm
        exact mapGlyph_ne_newline p hp
      simp only [List.map_cons, List.flatten_cons, List.append_assoc,
        List.singleton_append]
      rw [splitlinesAux_line _ _ _ hnl]
      simp [ih]
  rw [key]
  simp [asciiLine]

/-- C2: under the `cv2.resize` contract — the resized grayscale image has
exactly `gridHeight viewportRows = ⌊viewportRows * 0.9⌋` rows, each of
length `gridWidth viewportCols = min ASCII_WIDTH viewportCols` — the text
frame built by `_convert_to_ascii` has exactly `gridHeight viewportRows`
rows (as split by `splitlines`) and every row has identical length
`gridWidth viewportCols`. -/
theorem C2_frame_dims (vr vc : Nat) (gray : List (List Nat))
    (hh : gray.length = gridHeight vr)
    (hw : ∀ row ∈ gray, row.length = gridWidth vc) :
    (splitlines (asciiStr gray)).length = gridHeight vr ∧
    ∀ l ∈ splitlines (asciiStr gray), l.length = gridWidth vc := by
  rw [splitlines_asciiStr]
  constructor
  · simpa using hh
  · intro l hl
    obtain ⟨row, hrow, rfl⟩ := List.mem_map.mp hl
    have hr := hw row hrow
    simpa [asciiLine, String.length] using hr

/-- Witness for C2: a 21 × 80 grid (the dimensions forced by the minimum
viewport (24, 80)) converts to a frame of 21 rows, each 80 characters. -/
theorem C2_frame_dims_witness :
    (splitlines (asciiStr (List.replicate 21 (List.replicate 80 0)))).length
        = gridHeight 24 ∧
    ∀ l ∈ splitlines (asciiStr (List.replicate 21 (List.replicate 80 0))),
      l.length = gridWidth 80 :=
  C2_frame_dims 24 80 _ (by simp [gridHeight])
    (by
      intro row hrow
      rw [List.eq_of_mem_replicate hrow]
      decide)

/-- Witness for C3: inputs [a, b, c] with b failing yield the frames of a
and c, in that order. -/
theorem C3_order_preserved_witness :
    convert_video_frames
      (fun p => if p = "a" then some "A" else if p = "c" then some "C" else none)
      ["a", "b", "c"] = ["A", "C"] := by
  have h := C3_order_preserved
    (fun p => if p = "a" then some "A" else if p = "c" then some "C" else none)
    ["a", "b", "c"] (by decide)
  exact h.trans (by decide)

theorem pySlice_length_le (s : String) (n : Nat) : (pySlice s n).length ≤ n := by
  show (s.data.take n).length ≤ n
  rw [List.length_take]
  exact Nat.min_le_left _ _

/-- C8 counterexample: with the minimum viewport (24, 80) and the frame
produced from a 21 × 80 grid (the dimensions `_convert_to_ascii` uses at
that viewport), a source row of width 80 — not wider than the viewport —
is rendered with 79 characters (truncation is to `max_cols - 1`, not to
the viewport column count), and the status line lands on row 21, not on
the last usable row 23 = viewportRows − 1 (its row is
`min(max_rows - 1, len(lines))`). -/
theorem C8_counterexample :
    ((renderCalls 24 80 0 3
        (asciiStr (List.replicate 21 (List.replicate 80 128)))).getD 0
          (0, "")).2.length = 79 ∧
    ((renderCalls 24 80 0 3
        (asciiStr (List.replicate 21 (List.replicate 80 128)))).getLast?.getD
          (0, "")).1 = 21 ∧
    (79 : Nat) ≠ 80 ∧ (21 : Nat) ≠ 24 - 1 := by
  refine ⟨?_, ?_, by decide, by decide⟩
  · rw [show renderCalls 24 80 0 3
        (asciiStr (List.replicate 21 (List.replicate 80 128)))
        = renderCalls 24 80 0 3
          (asciiStr (List.replicate 21 (List.replicate 80 128))) from rfl]
    decide
  · decide

/-- C8 (amended): during playback of each frame, at most
`viewportRows − 1` rows of frame content are rendered; every rendered
string — content rows and the status line alike — is truncated to
`viewportCols − 1` characters (not the full viewport column count); and
the status line is rendered at row `min(viewportRows − 1, lineCount)`,
which is the row directly below the content when the frame is shorter
than the viewport, reaching the last usable row only when the frame fills
it. -/
theorem C8_render_bounds (maxRows maxCols idx total : Nat) (frame : String) :
    (renderCalls maxRows maxCols idx total frame).length
        = min (splitlines frame).length (maxRows - 1) + 1 ∧
    min (splitlines frame).length (maxRows - 1) ≤ maxRows - 1 ∧
    (∀ p ∈ renderCalls maxRows maxCols idx total frame,
      p.2.length ≤ maxCols - 1) ∧
    (renderCalls maxRows maxCols idx total frame).getLast?
      = some (min (maxRows - 1) (splitlines frame).length,
          pySlice (statusText idx total) (maxCols - 1)) := by
  refine ⟨?_, Nat.min_le_right _ _, ?_, ?_⟩
  · simp [renderCalls]
  · intro p hp
    unfold renderCalls at hp
    rcases List.mem_append.mp hp with hmem | hmem
    · obtain ⟨i, _, rfl⟩ := List.mem_map.mp hmem
      exact pySlice_length_le _ _
    · rw [List.mem_singleton] at hmem
      subst hmem
      exact pySlice_length_le _ _
  · exact List.getLast?_concat _

theorem countP_drawsOf (p : Ev → Bool) (hp : ∀ r s, p (Ev.draw r s) = false)
    (calls : List (Nat × String)) : (drawsOf calls).countP p = 0 := by
  induction calls with
  | nil => rfl
  | cons c cl ih =>
    simp [drawsOf, List.countP_cons, hp]

/-- C10: calling `play` with an empty frame sequence reports the error and
returns before `curses.initscr()`: no terminal events at all (no mode
toggling, no rendering, no restoration), for every oracle configuration. -/
theorem C10_empty_play_no_curses (maxRows maxCols : Nat) (key : Nat → Int)
    (rerr : Nat → Bool) (abort : Option Nat) :
    play maxRows maxCols key rerr abort [] = ([], Outcome.noFramesError) := rfl

theorem playLoop_no_endwin (maxRows maxCols total : Nat) (key : Nat → Int)
    (rerr : Nat → Bool) (abort : Option Nat) :
    ∀ (frames : List String) (idx : Nat),
      (playLoop maxRows maxCols total key rerr abort idx frames).1.countP isEndwin
        = 0 := by
  intro frames
  induction frames with
  | nil => intro idx; rfl
  | cons f rest ih =>
    intro idx
    unfold playLoop
    by_cases h1 : abort = some idx
    · simp [h1]
    · rw [if_neg h1]
      by_cases h2 : rerr idx = true
      · rw [if_pos h2]
        simp [List.countP_cons, ih, isEndwin]
      · rw [if_neg h2]
        by_cases h3 : key idx = 113
        · rw [if_pos h3]
          simp [List.countP_cons, List.countP_append,
            countP_drawsOf isEndwin (fun _ _ => rfl), isEndwin]
        · rw [if_neg h3]
          simp [List.countP_cons, List.countP_append,
            countP_drawsOf isEndwin (fun _ _ => rfl), ih, isEndwin]

/-- C6: on every exit path of `play` with a non-empty frame sequence —
normal exhaustion, user quit, render errors, or an exception/external
interruption propagating out of the loop — the `finally:` block runs
`curses.endwin()` exactly once. -/
theorem C6_endwin_once (maxRows maxCols : Nat) (key : Nat → Int)
    (rerr : Nat → Bool) (abort : Option Nat) (frames : List String)
    (h : frames ≠ []) :
    (play maxRows maxCols key rerr abort frames).1.countP isEndwin = 1 := by
  unfold play
  rw [if_neg (by simpa using h)]
  simp [List.countP_cons, List.countP_append, playLoop_no_endwin, isEndwin]

/-- Witness for C6: one frame, no quit, no interruption. -/
theorem C6_endwin_once_witness :
    (play 24 80 (fun _ => 0) (fun _ => false) none ["x"]).1.countP isEndwin
      = 1 :=
  C6_endwin_once 24 80 (fun _ => 0) (fun _ => false) none ["x"] (by decide)

theorem playLoop_quit_stats (maxRows maxCols total X : Nat) (key : Nat → Int)
    (hq : key (X - 1) = 113) (hprev : ∀ j, j + 1 < X → key j ≠ 113) :
    ∀ (frames : List String) (idx : Nat), idx < X →
      (playLoop maxRows maxCols total key (fun _ => false) none idx frames).1.countP
          isRefresh = min frames.length (X - idx) ∧
      (playLoop maxRows maxCols total key (fun _ => false) none idx frames).1.countP
          isClear = min frames.length (X - idx) ∧
      (X - idx ≤ frames.length →
        (playLoop maxRows maxCols total key (fun _ => false) none idx frames).1.countP
            isSleep = X - idx - 1 ∧
        (playLoop maxRows maxCols total key (fun _ => false) none idx frames).2
          = Outcome.userQuit) ∧
      (frames.length < X - idx →
        (playLoop maxRows maxCols total key (fun _ => false) none idx frames).1.countP
            isSleep = frames.length ∧
        (playLoop maxRows maxCols total key (fun _ => false) none idx frames).2
          = Outcome.exhausted) := by
  intro frames
  induction frames with
  | nil =>
    intro idx hidx
    refine ⟨by simp [playLoop], by simp [playLoop], ?_, ?_⟩
    · intro hcond
      exfalso
      rw [List.length_nil] at hcond
      omega
    · intro _
      exact ⟨rfl, rfl⟩
  | cons f rest ih =>
    intro idx hidx
    unfold playLoop
    rw [if_neg (by simp)]
    rw [if_neg (by simp)]
    by_cases hk : key idx = 113
    · rw [if_pos hk]
      have hidx1 : idx = X - 1 := by
        by_contra hne
        exact hprev idx (by omega) hk
      have hXi : X - idx = 1 := by omega
      rw [hXi]
      refine ⟨?_, ?_, ?_, ?_⟩
      · have h0 := countP_drawsOf isRefresh (fun _ _ => rfl)
          (renderCalls maxRows maxCols idx total f)
        simp [List.countP_cons, List.countP_append, h0, isRefresh, isClear]
      · have h0 := countP_drawsOf isClear (fun _ _ => rfl)
          (renderCalls maxRows maxCols idx total f)
        simp [List.countP_cons, List.countP_append, h0, isRefresh, isClear]
      · intro _
        have h0 := countP_drawsOf isSleep (fun _ _ => rfl)
          (renderCalls maxRows maxCols idx total f)
        constructor
        · simp [List.countP_cons, List.countP_append, h0, isSleep, isRefresh]
        · rfl
      · intro hcond
        exfalso
        rw [List.length_cons] at hcond
        omega
    · rw [if_neg hk]
      have hne1 : idx ≠ X - 1 := fun h => hk (h ▸ hq)
      have hlt : idx + 1 < X := by omega
      have hrec := ih (idx + 1) hlt
      have hRf := countP_drawsOf isRefresh (fun _ _ => rfl)
        (renderCalls maxRows maxCols idx total f)
      have hCl := countP_drawsOf isClear (fun _ _ => rfl)
        (renderCalls maxRows maxCols idx total f)
      have hSl := countP_drawsOf isSleep (fun _ _ => rfl)
        (renderCalls maxRows maxCols idx total f)
      refine ⟨?_, ?_, ?_, ?_⟩
      · have h1 := hrec.1
        simp [List.countP_cons, List.countP_append, hRf, isRefresh, h1]
        omega
      · have h1 := hrec.2.1
        simp [List.countP_cons, List.countP_append, hCl, isClear, h1]
        omega
      · intro hcond
        have hcond' : X - (idx + 1) ≤ rest.length := by
          simp only [List.length_cons] at hcond
          omega
        obtain ⟨hs, ho⟩ := hrec.2.2.1 hcond'
        constructor
        · simp [List.countP_cons, List.countP_append, hSl, isSleep, hs]
          omega
        · exact ho
      · intro hcond
        have hcond' : rest.length < X - (idx + 1) := by
          simp only [List.length_cons] at hcond
          omega
        obtain ⟨hs, ho⟩ := hrec.2.2.2 hcond'
        constructor
        · simp [List.countP_cons, List.countP_append, hSl, isSleep, hs]
        · exact ho

/-- C5: if the quit key `q` is first polled at frame X (1-based) and no
render error or interruption occurs, the playback loop renders exactly
`min(frameCount, X)` frames (refresh count, and equally clear count — so
no frame after X is ever entered), and on quit it breaks out before the
per-frame sleep: exactly X − 1 sleeps happen and the loop ends in
`userQuit`; with X beyond the sequence it sleeps once per frame and ends
in `exhausted`. -/
theorem C5_quit_renders (maxRows maxCols X : Nat) (key : Nat → Int)
    (frames : List String) (hne : frames ≠ []) (hX : 1 ≤ X)
    (hq : key (X - 1) = 113) (hprev : ∀ j, j + 1 < X → key j ≠ 113) :
    (play maxRows maxCols key (fun _ => false) none frames).1.countP isRefresh
        = min frames.length X ∧
    (play maxRows maxCols key (fun _ => false) none frames).1.countP isClear
        = min frames.length X ∧
    (X ≤ frames.length →
      (play maxRows maxCols key (fun _ => false) none frames).1.countP isSleep
          = X - 1 ∧
      (play maxRows maxCols key (fun _ => false) none frames).2
        = Outcome.userQuit) ∧
    (frames.length < X →
      (play maxRows maxCols key (fun _ => false) none frames).1.countP isSleep
          = frames.length ∧
      (play maxRows maxCols key (fun _ => false) none frames).2
        = Outcome.exhausted) := by
  have h0 := playLoop_quit_stats maxRows maxCols frames.length X key hq hprev
    frames 0 (by omega)
  rw [Nat.sub_zero] at h0
  unfold play
  rw [if_neg (by simpa using hne)]
  refine ⟨?_, ?_, ?_, ?_⟩
  · have h1 := h0.1
    simp [List.countP_cons, List.countP_append, isRefresh, h1]
  · have h1 := h0.2.1
    simp [List.countP_cons, List.countP_append, isClear, h1]
  · intro hcond
    obtain ⟨hs, ho⟩ := h0.2.2.1 hcond
    constructor
    · simp [List.countP_cons, List.countP_append, isSleep, hs]
    · exact ho
  · intro hcond
    obtain ⟨hs, ho⟩ := h0.2.2.2 hcond
    constructor
    · simp [List.countP_cons, List.countP_append, isSleep, hs]
    · exact ho

/-- Witness for C5: three frames, quit first polled at frame 2 — exactly
2 frames rendered, 1 sleep, outcome user-quit. -/
theorem C5_quit_renders_witness :
    (play 24 80 (fun j => if j = 1 then 113 else 0) (fun _ => false) none
        ["a", "b", "c"]).1.countP isRefresh = 2 ∧
    (play 24 80 (fun j => if j = 1 then 113 else 0) (fun _ => false) none
        ["a", "b", "c"]).1.countP isSleep = 1 ∧
    (play 24 80 (fun j => if j = 1 then 113 else 0) (fun _ => false) none
        ["a", "b", "c"]).2 = Outcome.userQuit := by
  have h := C5_quit_renders 24 80 2 (fun j => if j = 1 then 113 else 0)
    ["a", "b", "c"] (by decide) (by decide) (by decide)
    (by
      intro j hj
      have hj0 : j = 0 := by omega
      subst hj0
      decide)
  obtain ⟨hs, ho⟩ := h.2.2.1 (by decide)
  exact ⟨h.1.trans (by decide), hs, ho⟩

end HDAscii
